import Mathlib

/-!
Shallow embedding of the permission-requirement analysis of
`prusti-viper/src/encoder/foldunfold/requirements.rs` (the
`RequiredPermissionsGetter` trait and its implementations for IVL
statements, expressions, and sequences thereof).

The analysed IVL (`vir`) grammar, the permission algebra (`Perm`,
`perm_difference`, amount update), the predicate registry and the
footprint computation are external collaborators of that file; they are
modelled here from the specification's description of their interface.
Fatal termination (failed `assert!`, `unwrap()` on a missing registry
entry, `unimplemented!`/`unreachable!`) is modelled by `Option`: the
analysis returns `none` instead of a permission set.

Source positions carried by `vir` nodes are not modelled: `vir`
structural equality ignores positions, so they never influence the
returned sets; `set_default_pos` is the identity on this model.

`Vec<Expr>` / `Vec<Stmt>` fields are embedded as the mutually inductive
`ExprList` / `StmtList` (isomorphic to `List Expr` / `List Stmt` via
`toList`), so that structural recursion and decidable equality go
through.
-/

namespace FoldUnfold

/-- Permission amounts observed by this component (`vir::PermAmount`):
`Write` = full ownership, `Read` = a shared read amount. -/
inductive PermAmount where
  | Read
  | Write
deriving DecidableEq, Repr

/-- Modelled from the spec: `vir` types, as far as this analysis inspects
them — a registry key plus the `is_typed_ref_or_type_var` test.
Reference types are `TypedRef` names (the spec's "typed-reference"
arguments); `isRef` distinguishes them for `try_deref`. -/
inductive Ty where
  | TInt
  | TBool
  | TypedRef (name : String) (isRef : Bool)
  | TypeVar (name : String)
deriving DecidableEq, Repr

/-- `Type::is_typed_ref_or_type_var`. -/
def Ty.is_typed_ref_or_type_var : Ty → Bool
  | .TypedRef _ _ => true
  | .TypeVar _ => true
  | _ => false

/-- A local variable (`vir::LocalVar`): a name and a type. -/
structure LocalVar where
  name : String
  typ : Ty
deriving DecidableEq, Repr

/-- A field (`vir::Field`): a name and a type. -/
structure FieldDef where
  name : String
  typ : Ty
deriving DecidableEq, Repr

/-- Constants, opaque to this analysis. -/
inductive Constant where
  | BoolC (b : Bool)
  | IntC (i : Int)
deriving DecidableEq, Repr

mutual

/-- The IVL expression grammar (`vir::Expr`), restricted to the
constructors matched by `get_required_permissions`.  Fields that the
analysis never inspects (positions, operator kinds, callee signatures)
are kept only where they affect the structural identity of places. -/
inductive Expr where
  | Const (c : Constant)
  | Local (v : LocalVar)
  | Field (base : Expr) (f : FieldDef)
  | Variant (base : Expr) (f : FieldDef)
  | LabelledOld (label : String) (base : Expr)
  | MagicWand (left : Expr) (right : Expr)
  | InhaleExhale (inh : Expr) (exh : Expr)
  | Unfolding (arguments : ExprList) (base : Expr)
      (permission : PermAmount) (variant : Option String)
  | PredicateAccessPredicate (typ : Ty) (argument : Expr) (permission : PermAmount)
  | FieldAccessPredicate (base : Expr) (permission : PermAmount)
  | UnaryOp (argument : Expr)
  | BinOp (left : Expr) (right : Expr)
  | ContainerOp (left : Expr) (right : Expr)
  | Seq (elements : ExprList)
  | Cond (guard : Expr) (then_expr : Expr) (else_expr : Expr)
  | LetExpr (v : LocalVar) (def_ : Expr) (body : Expr)
  | ForAll (vars : List LocalVar) (body : Expr)
  | Exists (vars : List LocalVar) (body : Expr)
  | AddrOf (base : Expr)
  | FuncApp (name : String) (arguments : ExprList)
  | DomainFuncApp (name : String) (arguments : ExprList)
  | DowncastExpr (base : Expr) (enum_place : Expr) (f : FieldDef)
  | SnapApp (base : Expr)

/-- A `Vec<Expr>`. -/
inductive ExprList where
  | nil
  | cons (head : Expr) (tail : ExprList)

end

deriving instance DecidableEq for Expr, ExprList
deriving instance Repr for Expr, ExprList

mutual

/-- The IVL statement grammar (`vir::Stmt`): exactly the variants matched
by `get_required_permissions` (its catch-all arm is reached only through
`ApplyMagicWand` whose `magic_wand` field is not a `MagicWand`
expression, since the other variants are matched unconditionally). -/
inductive Stmt where
  | Comment (s : String)
  | Label (s : String)
  | Inhale (expr : Expr)
  | Exhale (expr : Expr)
  | Assert (expr : Expr)
  | Obtain (expr : Expr)
  | MethodCall (name : String) (arguments : ExprList) (targets : List LocalVar)
  | Assign (target : Expr) (source : Expr)
  | Fold (arguments : ExprList) (permission : PermAmount) (enum_variant : Option String)
  | Unfold (arguments : ExprList) (permission : PermAmount) (enum_variant : Option String)
  | BeginFrame
  | EndFrame
  | TransferPerm (left : Expr) (unchecked : Bool)
  | PackageMagicWand
  | ApplyMagicWand (magic_wand : Expr)
  | ExpireBorrows
  | If (guard : Expr) (then_stmts : StmtList) (else_stmts : StmtList)
  | Downcast (base : Expr) (f : FieldDef)

/-- A `Vec<Stmt>`. -/
inductive StmtList where
  | nil
  | cons (head : Stmt) (tail : StmtList)

end

deriving instance DecidableEq for Stmt, StmtList

/-- View of an `ExprList` as a `List`. -/
def ExprList.toList : ExprList → List Expr
  | .nil => []
  | .cons e es => e :: es.toList

/-- View of a `StmtList` as a `List`. -/
def StmtList.toList : StmtList → List Stmt
  | .nil => []
  | .cons s ss => s :: ss.toList

/-- `Expr::is_place`: a storage location reachable by a chain of
field/variant/deref steps rooted at a variable (modelled from the spec's
description of places). -/
def Expr.is_place : Expr → Bool
  | .Local _ => true
  | .Field base _ => base.is_place
  | .Variant base _ => base.is_place
  | .AddrOf base => base.is_place
  | .LabelledOld _ base => base.is_place
  | .Unfolding _ base _ _ => base.is_place
  | _ => false

/-- Modelled from the spec: the type of an expression, as consulted by
the analysis — only the types of places (variables, fields, variants,
possibly under `old` labels) and of call arguments are ever inspected. -/
def Expr.getType : Expr → Ty
  | .Local v => v.typ
  | .Field _ f => f.typ
  | .Variant _ f => f.typ
  | .LabelledOld _ base => base.getType
  | .Unfolding _ base _ _ => base.getType
  | .AddrOf base => base.getType
  | .Const (.IntC _) => .TInt
  | _ => .TBool

/-- `Expr::get_label`: the historical label carried by the outermost
node, when it is a labelled-old node. -/
def Expr.get_label : Expr → Option String
  | .LabelledOld label _ => some label
  | _ => none

/-- `Expr::is_old`: whether the place is (rooted in) an old-state
expression (modelled from the spec's "old-state expression"). -/
def Expr.is_old : Expr → Bool
  | .LabelledOld _ _ => true
  | .Field base _ => base.is_old
  | .Variant base _ => base.is_old
  | .AddrOf base => base.is_old
  | .Unfolding _ base _ _ => base.is_old
  | _ => false

/-- `Expr::old(label)`: label an expression with a historical program
point (modelled from the spec). -/
def Expr.old (e : Expr) (label : String) : Expr :=
  .LabelledOld label e

/-- Modelled from the spec: `try_deref` — the optional one-step
dereference view of a typed-reference place: a `val_ref` field access on
the place, typed at the reference's target. -/
def Expr.try_deref (e : Expr) : Option Expr :=
  match e.getType with
  | .TypedRef name true => some (.Field e ⟨"val_ref", .TypedRef name false⟩)
  | _ => none

mutual

/-- Modelled from the spec: `replace_place` — substitution of one place
for another inside a larger expression: every subexpression structurally
equal to `target` is replaced by `replacement` (a pure rebuild, no
mutation). -/
def Expr.replace_place (e : Expr) (target replacement : Expr) : Expr :=
  if e = target then replacement
  else match e with
    | .Const c => .Const c
    | .Local v => .Local v
    | .Field base f => .Field (base.replace_place target replacement) f
    | .Variant base f => .Variant (base.replace_place target replacement) f
    | .LabelledOld l base => .LabelledOld l (base.replace_place target replacement)
    | .MagicWand l r =>
        .MagicWand (l.replace_place target replacement) (r.replace_place target replacement)
    | .InhaleExhale i x =>
        .InhaleExhale (i.replace_place target replacement) (x.replace_place target replacement)
    | .Unfolding args base p v =>
        .Unfolding (ExprList.replace_place_each args target replacement)
          (base.replace_place target replacement) p v
    | .PredicateAccessPredicate t a p =>
        .PredicateAccessPredicate t (a.replace_place target replacement) p
    | .FieldAccessPredicate base p =>
        .FieldAccessPredicate (base.replace_place target replacement) p
    | .UnaryOp a => .UnaryOp (a.replace_place target replacement)
    | .BinOp l r => .BinOp (l.replace_place target replacement) (r.replace_place target replacement)
    | .ContainerOp l r =>
        .ContainerOp (l.replace_place target replacement) (r.replace_place target replacement)
    | .Seq els => .Seq (ExprList.replace_place_each els target replacement)
    | .Cond g t e' =>
        .Cond (g.replace_place target replacement) (t.replace_place target replacement)
          (e'.replace_place target replacement)
    | .LetExpr v d b =>
        .LetExpr v (d.replace_place target replacement) (b.replace_place target replacement)
    | .ForAll vs b => .ForAll vs (b.replace_place target replacement)
    | .Exists vs b => .Exists vs (b.replace_place target replacement)
    | .AddrOf base => .AddrOf (base.replace_place target replacement)
    | .FuncApp n args => .FuncApp n (ExprList.replace_place_each args target replacement)
    | .DomainFuncApp n args =>
        .DomainFuncApp n (ExprList.replace_place_each args target replacement)
    | .DowncastExpr b ep f =>
        .DowncastExpr (b.replace_place target replacement) (ep.replace_place target replacement) f
    | .SnapApp base => .SnapApp (base.replace_place target replacement)

/-- `replace_place` mapped over a `Vec<Expr>`. -/
def ExprList.replace_place_each : ExprList → Expr → Expr → ExprList
  | .nil, _, _ => .nil
  | .cons e tl, target, replacement =>
      .cons (e.replace_place target replacement) (tl.replace_place_each target replacement)

end

/-- A permission (`foldunfold::perm::Perm`, modelled from the spec):
either an access permission `Acc` to a concrete location or a predicate
permission `Pred` to an abstract resource, each over a place and
carrying an amount. -/
inductive Perm where
  | Acc (place : Expr) (amount : PermAmount)
  | Pred (place : Expr) (amount : PermAmount)
deriving DecidableEq, Repr

/-- The (kind, place) identity of a permission: per the spec, the
external algebra intersects/differences permissions by kind and place,
amount-insensitively. -/
def Perm.kindPlace : Perm → Bool × Expr
  | .Acc place _ => (true, place)
  | .Pred place _ => (false, place)

/-- `Perm::map_place`: rebuild the permission's place through `f`. -/
def Perm.map_place (f : Expr → Expr) : Perm → Perm
  | .Acc place a => .Acc (f place) a
  | .Pred place a => .Pred (f place) a

/-- Modelled from the spec: amount initialization — set the permission's
amount (amounts are opaque values the analysis initializes, updates or
copies, never computes with). -/
def Perm.init_perm_amount (p : Perm) (a : PermAmount) : Perm :=
  match p with
  | .Acc place _ => .Acc place a
  | .Pred place _ => .Pred place a

/-- Modelled from the spec: amount update — set the permission's amount. -/
def Perm.update_perm_amount (p : Perm) (a : PermAmount) : Perm :=
  match p with
  | .Acc place _ => .Acc place a
  | .Pred place _ => .Pred place a

/-- Modelled from the spec: `perm_difference` from the external
permission algebra — remove from `left` every permission matched by
kind and place (amount-insensitively) in `right`. -/
def perm_difference (left right : Finset Perm) : Finset Perm :=
  left.filter (fun p => ∀ q ∈ right, p.kindPlace ≠ q.kindPlace)

/-- Modelled from the spec: a predicate definition — a canonical
self-place, the body's footprint for an optional enum variant, and, for
enum predicates, the discriminant field. -/
inductive Predicate where
  | Struct (self : Expr) (body_footprint : Option String → Finset Perm)
  | Enum (self : Expr) (body_footprint : Option String → Finset Perm)
      (discriminant_field : FieldDef)

/-- `Predicate::self_place`. -/
def Predicate.self_place : Predicate → Expr
  | .Struct s _ => s
  | .Enum s _ _ => s

/-- `Predicate::get_body_footprint`. -/
def Predicate.get_body_footprint : Predicate → Option String → Finset Perm
  | .Struct _ fp, variant => fp variant
  | .Enum _ fp _, variant => fp variant

/-- The read-only environment of the analysis: the predicate registry
(`Predicates`, keyed by type) together with the external footprint
computation for expressions (`get_footprint`, used by `Inhale`; modelled
from the spec as an opaque collaborator, assumed correct). -/
structure Predicates where
  get : Ty → Option Predicate
  expr_footprint : Expr → Finset Perm

/-- `expr.get_footprint(predicates)` (external, modelled from the spec). -/
def Expr.get_footprint (e : Expr) (predicates : Predicates) : Finset Perm :=
  predicates.expr_footprint e

/-- Modelled from the spec: `Expr::pred_permission` — a predicate-access
permission expression over a place, defined when the place has a
predicate (typed-reference) type. -/
def pred_permission (place : Expr) (amount : PermAmount) : Option Expr :=
  match place.getType with
  | .TypedRef n r => some (.PredicateAccessPredicate (.TypedRef n r) place amount)
  | _ => none

/-- The body of the `vir::Expr::PredicateAccessPredicate` arm of
`get_required_permissions` (requirements.rs, lines 240-275), shared with
the `FuncApp` argument rewriting: `ε` is the read amount; split on
whether the argument carries a label and on whether it is an old
expression, and demand `Pred` (and, for non-old arguments, also `Acc`)
on the (possibly re-labelled) place at `ε`. -/
def predAccPredReq (argument : Expr) : Finset Perm :=
  let epsilon := PermAmount.Read
  match argument.get_label with
  | none =>
      if argument.is_old then {Perm.Pred argument epsilon}
      else {Perm.Pred argument epsilon, Perm.Acc argument epsilon}
  | some label =>
      if argument.is_old then {Perm.Pred (argument.old label) epsilon}
      else
        {Perm.Pred (argument.old label) epsilon, Perm.Acc (argument.old label) epsilon}

/-- The `places_in_pred` set of the `vir::Stmt::Fold` arm
(requirements.rs, lines 110-119): the predicate's body footprint for the
variant, with the predicate's self-place substituted by the concrete
place and every amount initialized to the fold's amount. -/
def fold_places_in_pred (predicate : Predicate) (place : Expr) (permission : PermAmount)
    (enum_variant : Option String) : Finset Perm :=
  (predicate.get_body_footprint enum_variant).image
    (fun perm =>
      (perm.map_place (fun p => p.replace_place predicate.self_place place)).init_perm_amount
        permission)

/-- The `places_in_pred` set of the `vir::Expr::Unfolding` arm
(requirements.rs, lines 217-225): the predicate's body footprint for the
variant, with the self-place substituted by the concrete place and every
amount updated to the unfolding's amount — the permissions made locally
available by the simulated temporary unfold. -/
def unfolding_opened (predicate : Predicate) (place : Expr) (permission : PermAmount)
    (variant : Option String) : Finset Perm :=
  (predicate.get_body_footprint variant).image
    (fun aop =>
      (aop.map_place (fun p => p.replace_place predicate.self_place place)).update_perm_amount
        permission)

/-- The `vir::Expr::Downcast` arm of `get_required_permissions`
(requirements.rs, lines 398-410), shared with the statement `Downcast`
arm (which delegates to a trivially-guarded downcast expression): look
up `enum_place`'s predicate (a missing entry or a non-enum predicate is
fatal) and require the requirement of `enum_place` extended with the
enum's discriminant field.  The constructed extension is a `Field` node,
whose own arm returns `{Acc(self, Read)}` unconditionally, so that
requirement is written out directly here. -/
def downcastReq (enum_place : Expr) (predicates : Predicates) : Option (Finset Perm) :=
  match predicates.get enum_place.getType with
  | none => none
  | some (.Enum _ _ discriminant_field) =>
      some {Perm.Acc (.Field enum_place discriminant_field) PermAmount.Read}
  | some _ => none

mutual

/-- `RequiredPermissionsGetter for vir::Stmt` (requirements.rs, lines
39-194).  `none` models fatal termination (`assert!`, `unwrap`,
`unimplemented!`).  Position tagging (`set_default_pos` in the
`Exhale`/`Assert`/`Obtain` arm) is the identity here because positions
are not part of structural identity. -/
def Stmt.get_required_permissions (s : Stmt) (predicates : Predicates) :
    Option (Finset Perm) :=
  match s with
  | .Comment _ | .Label _ => some ∅
  | .Inhale expr =>
      match expr.get_required_permissions predicates with
      | none => none
      | some r => some (perm_difference r (expr.get_footprint predicates))
  | .Exhale expr | .Assert expr | .Obtain expr =>
      expr.get_required_permissions predicates
  | .MethodCall _ arguments targets =>
      match arguments with
      | .nil =>
          some ((targets.map (fun v => Perm.Acc (.Local v) PermAmount.Write)).toFinset)
      | _ => none
  | .Assign target source =>
      match source.get_required_permissions predicates with
      | none => none
      | some res => some (insert (Perm.Acc target PermAmount.Write) res)
  | .Fold arguments permission enum_variant =>
      match arguments with
      | .cons place .nil =>
          match predicates.get place.getType with
          | none => none
          | some predicate =>
              some (fold_places_in_pred predicate place permission enum_variant)
      | _ => none
  | .Unfold arguments permission _ =>
      match arguments with
      | .cons place .nil =>
          match place.get_required_permissions predicates with
          | none => none
          | some r => some (r.image (fun perm => perm.init_perm_amount permission))
      | _ => none
  | .BeginFrame | .EndFrame => some ∅
  | .TransferPerm left unchecked =>
      some (if unchecked then ∅ else {Perm.Acc left PermAmount.Read})
  | .PackageMagicWand => some ∅
  | .ApplyMagicWand magic_wand =>
      match magic_wand with
      | .MagicWand left _ => left.get_required_permissions predicates
      | _ => none
  | .ExpireBorrows => some ∅
  | .If guard then_stmts else_stmts =>
      match guard.get_required_permissions predicates,
          then_stmts.get_required_permissions predicates,
          else_stmts.get_required_permissions predicates with
      | some guard_reqs, some then_reqs, some else_reqs =>
          some (guard_reqs ∪ (then_reqs ∩ else_reqs))
      | _, _, _ => none
  | .Downcast base _ => downcastReq base predicates

/-- `RequiredPermissionsGetter for Vec<A>` at `A = Stmt` (requirements.rs,
lines 29-37): the union of the elements' requirements.  The source folds
the union left-to-right; `∪` is associative and commutative and a fatal
element aborts the whole analysis, so the structural recursion below
computes the same result. -/
def StmtList.get_required_permissions (ss : StmtList) (predicates : Predicates) :
    Option (Finset Perm) :=
  match ss with
  | .nil => some ∅
  | .cons s tl =>
      match s.get_required_permissions predicates, tl.get_required_permissions predicates with
      | some a, some b => some (a ∪ b)
      | _, _ => none

/-- `RequiredPermissionsGetter for vir::Expr` (requirements.rs, lines
196-423).  `none` models fatal termination. -/
def Expr.get_required_permissions (e : Expr) (predicates : Predicates) :
    Option (Finset Perm) :=
  match e with
  | .Const _ => some ∅
  | .Unfolding arguments base permission variant =>
      match arguments with
      | .cons place .nil =>
          match predicates.get place.getType with
          | none => none
          | some predicate =>
              match base.get_required_permissions predicates with
              | none => none
              | some expr_req_places =>
                  some (insert (Perm.Pred place permission)
                    (perm_difference expr_req_places
                      (unfolding_opened predicate place permission variant)))
      | _ => none
  | .LabelledOld _ _ => some ∅
  | .PredicateAccessPredicate _ argument _ => some (predAccPredReq argument)
  | .FieldAccessPredicate base _ => base.get_required_permissions predicates
  | .UnaryOp argument => argument.get_required_permissions predicates
  | .BinOp left right =>
      -- `vec![left, right].get_required_permissions(predicates)`: the
      -- `Vec` rule on the fresh two-element sequence, written out as the
      -- union of the two elements' requirements.
      match left.get_required_permissions predicates,
          right.get_required_permissions predicates with
      | some a, some b => some (a ∪ b)
      | _, _ => none
  | .ContainerOp left right =>
      -- `vec![left, right].get_required_permissions(predicates)`.
      match left.get_required_permissions predicates,
          right.get_required_permissions predicates with
      | some a, some b => some (a ∪ b)
      | _, _ => none
  | .Seq elements => elements.get_required_permissions predicates
  | .Cond guard then_expr else_expr =>
      -- `vec![guard, then_expr, else_expr].get_required_permissions(..)`.
      match guard.get_required_permissions predicates,
          then_expr.get_required_permissions predicates,
          else_expr.get_required_permissions predicates with
      | some a, some b, some c => some (a ∪ b ∪ c)
      | _, _, _ => none
  | .LetExpr _ _ _ => none
  | .ForAll vars body | .Exists vars body =>
      if vars.all (fun v => !v.typ.is_typed_ref_or_type_var) then
        let vars_places : Finset Perm :=
          (vars.map (fun v => Perm.Acc (.Local v) PermAmount.Write)).toFinset
        match body.get_required_permissions predicates with
        | none => none
        | some r => some (perm_difference r vars_places)
      else none
  | .Local _ => some ∅
  | .AddrOf _ => none
  | .Variant base f => some {Perm.Acc (.Variant base f) PermAmount.Read}
  | .Field base f => some {Perm.Acc (.Field base f) PermAmount.Read}
  | .MagicWand _ _ => some ∅
  | .FuncApp _ arguments => funcAppArgsReq arguments predicates
  | .DomainFuncApp _ arguments => funcAppArgsReq arguments predicates
  | .InhaleExhale _ _ => some ∅
  | .DowncastExpr _ enum_place _ => downcastReq enum_place predicates
  | .SnapApp _ => none

/-- `RequiredPermissionsGetter for Vec<A>` at `A = Expr`: the union of
the elements' requirements (see `StmtList.get_required_permissions`). -/
def ExprList.get_required_permissions (es : ExprList) (predicates : Predicates) :
    Option (Finset Perm) :=
  match es with
  | .nil => some ∅
  | .cons e tl =>
      match e.get_required_permissions predicates, tl.get_required_permissions predicates with
      | some a, some b => some (a ∪ b)
      | _, _ => none

/-- The `vir::Expr::FuncApp` / `DomainFuncApp` arm (requirements.rs,
lines 361-394): each argument that is a place of reference or
type-variable type is rewritten — to
`acc(deref.field, Read) && pred(deref.field, Read)` when it has a
one-step dereference view (where the `pred_permission(..).unwrap()`
aborts if the dereferenced place has no predicate type), and to a
predicate-access predicate on the argument at read amount otherwise —
other arguments pass through unchanged; the rewritten sequence is then
combined by the `Vec` rule.  The requirements of the rewritten forms hit
only the `Field`, `FieldAccessPredicate` and `PredicateAccessPredicate`
arms and are written out directly here. -/
def funcAppArgsReq (arguments : ExprList) (predicates : Predicates) :
    Option (Finset Perm) :=
  match arguments with
  | .nil => some ∅
  | .cons arg tl =>
      let headReq : Option (Finset Perm) :=
        if arg.is_place && arg.getType.is_typed_ref_or_type_var then
          match arg.try_deref with
          | some field_place =>
              match pred_permission field_place PermAmount.Read with
              | none => none
              | some _ =>
                  some ({Perm.Acc field_place PermAmount.Read} ∪ predAccPredReq field_place)
          | none => some (predAccPredReq arg)
        else arg.get_required_permissions predicates
      match headReq, funcAppArgsReq tl predicates with
      | some a, some b => some (a ∪ b)
      | _, _ => none

end

/-- The `Vec` rule as a function of an element analysis `f`: the union of
`f` over the list, fatal as soon as any element is fatal.  Both
`ExprList.get_required_permissions` and `StmtList.get_required_permissions`
are instances of this shape (see `exprList_req_eq_seqUnion` and
`stmtList_req_eq_seqUnion`). -/
def seqUnion {α : Type} (f : α → Option (Finset Perm)) : List α → Option (Finset Perm)
  | [] => some ∅
  | x :: tl =>
      match f x, seqUnion f tl with
      | some a, some b => some (a ∪ b)
      | _, _ => none

/-! ### Concrete fixture for the witnesses

A registry with one struct predicate, for the type `tyT`: self-place
`self`, body footprint `{Acc(self.f, Write)}` for every variant.  The
external expression-footprint collaborator returns `∅` everywhere (it is
only consulted by `Inhale`, which no witness uses). -/

/-- The predicate type of the fixture. -/
def tyT : Ty := .TypedRef "T" false

/-- The field `f : Int` of the fixture predicate's body. -/
def fld : FieldDef := ⟨"f", .TInt⟩

/-- The fixture predicate's self variable. -/
def selfLV : LocalVar := ⟨"self", tyT⟩

/-- The fixture predicate's self-place. -/
def selfPlace : Expr := .Local selfLV

/-- A program variable `x : T` (of the predicate type). -/
def xLV : LocalVar := ⟨"x", tyT⟩

/-- The place `x`. -/
def xPlace : Expr := .Local xLV

/-- A program variable `y : Int`. -/
def yLV : LocalVar := ⟨"y", .TInt⟩

/-- A program variable `z : Int`. -/
def zLV : LocalVar := ⟨"z", .TInt⟩

/-- A bound quantifier variable `v : Int` (not a reference, not a type
variable). -/
def vLV : LocalVar := ⟨"v", .TInt⟩

/-- A free program variable `w : Int`. -/
def wLV : LocalVar := ⟨"w", .TInt⟩

/-- The constant `0`. -/
def const0 : Expr := .Const (.IntC 0)

/-- The fixture predicate `T(self) { Acc(self.f, Write) }`. -/
def predT : Predicate :=
  .Struct selfPlace (fun _ => {Perm.Acc (.Field selfPlace fld) .Write})

/-- The fixture registry: `tyT ↦ predT`, empty expression footprints. -/
def regT : Predicates :=
  ⟨fun t => if t = tyT then some predT else none, fun _ => ∅⟩

/-! ### Helper lemmas -/

/-- `ExprList.get_required_permissions` is `seqUnion` of the element
analysis over the underlying list. -/
theorem exprList_req_eq_seqUnion :
    (es : ExprList) → (predicates : Predicates) →
    es.get_required_permissions predicates
      = seqUnion (fun e => e.get_required_permissions predicates) es.toList
  | .nil, _ => rfl
  | .cons e tl, predicates => by
      have ih := exprList_req_eq_seqUnion tl predicates
      simp only [ExprList.get_required_permissions, ExprList.toList, seqUnion, ih]

/-- `StmtList.get_required_permissions` is `seqUnion` of the element
analysis over the underlying list. -/
theorem stmtList_req_eq_seqUnion :
    (ss : StmtList) → (predicates : Predicates) →
    ss.get_required_permissions predicates
      = seqUnion (fun s => s.get_required_permissions predicates) ss.toList
  | .nil, _ => rfl
  | .cons s tl, predicates => by
      have ih := stmtList_req_eq_seqUnion tl predicates
      simp only [StmtList.get_required_permissions, StmtList.toList, seqUnion, ih]

/-- `seqUnion` is invariant under permutation of the list. -/
theorem seqUnion_perm_invariant {α : Type} (f : α → Option (Finset Perm))
    {l₁ l₂ : List α} (h : l₁.Perm l₂) : seqUnion f l₁ = seqUnion f l₂ := by
  induction h with
  | nil => rfl
  | cons x _ ih => simp only [seqUnion, ih]
  | swap x y l =>
      cases hx : f x <;> cases hy : f y <;> cases hl : seqUnion f l <;>
        simp [seqUnion, hx, hy, hl, Finset.union_left_comm]
  | trans _ _ ih₁ ih₂ => exact ih₁.trans ih₂

/-- `seqUnion` is invariant under duplication of an element. -/
theorem seqUnion_dup {α : Type} (f : α → Option (Finset Perm)) (x : α) (l : List α) :
    seqUnion f (x :: x :: l) = seqUnion f (x :: l) := by
  cases hx : f x <;> cases hl : seqUnion f l <;>
    simp [seqUnion, hx, hl, ← Finset.union_assoc, Finset.union_self]

/-! ### Claim theorems -/

/-- C2: for a statement `Fold([place], amount, variant)` whose single
argument is a place whose type has a predicate in the registry, the
required set is exactly the predicate's body footprint for the variant
with the self-place substituted by `place` and every amount initialized
to the fold's amount (`fold_places_in_pred`). -/
theorem fold_requirements (place : Expr) (amount : PermAmount)
    (enum_variant : Option String) (predicates : Predicates) (predicate : Predicate)
    (_hplace : place.is_place = true)
    (hpred : predicates.get place.getType = some predicate) :
    Stmt.get_required_permissions (.Fold (.cons place .nil) amount enum_variant) predicates
      = some (fold_places_in_pred predicate place amount enum_variant) := by
  simp [Stmt.get_required_permissions, hpred]

/-- C2 witness: for the fixture predicate `T(self) {Acc(self.f, Write)}`,
`Fold([x], Write, None)` requires exactly `{Acc(x.f, Write)}`. -/
theorem fold_requirements_witness :
    Stmt.get_required_permissions (.Fold (.cons xPlace .nil) .Write none) regT
      = some {Perm.Acc (.Field xPlace fld) .Write} := by
  rw [fold_requirements xPlace .Write none regT predT (by decide) rfl]
  decide

/-- C3 counterexample: `x` is a place of a predicate type (the fixture
registry has a predicate for `x`'s type), yet `Unfold([x], Write)`
requires `∅` — the requirement of the place `x` itself, a local — and
not the claimed `{Pred(x, Write)}`. -/
theorem unfold_requirements_counterexample :
    regT.get xPlace.getType = some predT ∧
    Stmt.get_required_permissions (.Unfold (.cons xPlace .nil) .Write none) regT = some ∅ ∧
    Stmt.get_required_permissions (.Unfold (.cons xPlace .nil) .Write none) regT
      ≠ some {Perm.Pred xPlace .Write} :=
  ⟨rfl, by decide, by decide⟩

/-- C3 (amended): for a statement `Unfold([place], amount)` whose single
argument is a place, the required set is the requirement of the place
itself with every amount initialized to the unfold's amount — for a
local that is `∅` and for a field place `{Acc(place, amount)}`; the
folded predicate permission `Pred(place, amount)` is not demanded. -/
theorem unfold_requirements (place : Expr) (amount : PermAmount)
    (enum_variant : Option String) (predicates : Predicates) (r : Finset Perm)
    (_hplace : place.is_place = true)
    (hr : place.get_required_permissions predicates = some r) :
    Stmt.get_required_permissions (.Unfold (.cons place .nil) amount enum_variant) predicates
      = some (r.image (fun perm => perm.init_perm_amount amount)) := by
  simp [Stmt.get_required_permissions, hr]

/-- C3 (amended) witness: `Unfold([x.f], Write)` requires
`{Acc(x.f, Write)}` (the requirement of the field place at the unfold's
amount). -/
theorem unfold_requirements_witness :
    Stmt.get_required_permissions (.Unfold (.cons (.Field xPlace fld) .nil) .Write none) regT
      = some {Perm.Acc (.Field xPlace fld) .Write} := by
  rw [unfold_requirements (.Field xPlace fld) .Write none regT
    {Perm.Acc (.Field xPlace fld) .Read} (by decide) (by decide)]
  decide

/-- C1: for an expression `Unfolding([place], base, amount, variant)`
where the registry has a predicate for `place`'s type (and, sanity, the
opened footprint does not itself contain the folded permission
`Pred(place, amount)`), the returned set contains no permission of the
`opened` set (`unfolding_opened`: the body footprint for the variant
with the self-place substituted by `place` and amounts updated to
`amount`), retains every permission of `requirement(base)` that the
external algebra does not match (by kind and place) in `opened`, and
always contains `Pred(place, amount)`. -/
theorem unfolding_requirements
    (place base : Expr) (amount : PermAmount) (variant : Option String)
    (predicates : Predicates) (predicate : Predicate) (r : Finset Perm)
    (_hplace : place.is_place = true)
    (hpred : predicates.get place.getType = some predicate)
    (hbase : base.get_required_permissions predicates = some r)
    (hsane : Perm.Pred place amount ∉ unfolding_opened predicate place amount variant) :
    ∃ res,
      Expr.get_required_permissions (.Unfolding (.cons place .nil) base amount variant)
          predicates = some res ∧
      (∀ q ∈ unfolding_opened predicate place amount variant, q ∉ res) ∧
      (∀ q ∈ r, (∀ o ∈ unfolding_opened predicate place amount variant,
        q.kindPlace ≠ o.kindPlace) → q ∈ res) ∧
      Perm.Pred place amount ∈ res := by
  refine ⟨insert (Perm.Pred place amount)
    (perm_difference r (unfolding_opened predicate place amount variant)), ?_, ?_, ?_, ?_⟩
  · simp [Expr.get_required_permissions, hpred, hbase]
  · intro q hq hmem
    rcases Finset.mem_insert.mp hmem with h | h
    · exact hsane (h ▸ hq)
    · exact (Finset.mem_filter.mp h).2 q hq rfl
  · intro q hq hnomatch
    exact Finset.mem_insert_of_mem (Finset.mem_filter.mpr ⟨hq, hnomatch⟩)
  · exact Finset.mem_insert_self _ _

/-- C1 witness: `Unfolding([x], x.f, Write, None)` over the fixture.
`requirement(x.f) = {Acc(x.f, Read)}`, `opened = {Acc(x.f, Write)}`;
the result contains nothing of `opened`, and contains `Pred(x, Write)`. -/
theorem unfolding_requirements_witness :
    ∃ res,
      Expr.get_required_permissions
          (.Unfolding (.cons xPlace .nil) (.Field xPlace fld) .Write none) regT = some res ∧
      (∀ q ∈ unfolding_opened predT xPlace .Write none, q ∉ res) ∧
      (∀ q ∈ ({Perm.Acc (.Field xPlace fld) .Read} : Finset Perm),
        (∀ o ∈ unfolding_opened predT xPlace .Write none, Perm.kindPlace q ≠ o.kindPlace) →
          q ∈ res) ∧
      Perm.Pred xPlace .Write ∈ res :=
  unfolding_requirements xPlace (.Field xPlace fld) .Write none regT predT
    {Perm.Acc (.Field xPlace fld) .Read} (by decide) rfl (by decide) (by decide)

/-- C4: the requirement of `If(guard, then_stmts, else_stmts)` is
`requirement(guard) ∪ (requirement(then_stmts) ∩ requirement(else_stmts))`. -/
theorem if_requirements (guard : Expr) (then_stmts else_stmts : StmtList)
    (predicates : Predicates) (g t e : Finset Perm)
    (hg : guard.get_required_permissions predicates = some g)
    (ht : then_stmts.get_required_permissions predicates = some t)
    (he : else_stmts.get_required_permissions predicates = some e) :
    Stmt.get_required_permissions (.If guard then_stmts else_stmts) predicates
      = some (g ∪ (t ∩ e)) := by
  simp [Stmt.get_required_permissions, hg, ht, he]

/-- C4 witness: the claim's concrete instance — the then-branch requires
`{Acc(x, Write), Acc(y, Write)}`, the else-branch
`{Acc(y, Write), Acc(z, Write)}`, the guard `∅`; the `If` requires
exactly `{Acc(y, Write)}`. -/
theorem if_requirements_witness :
    Stmt.get_required_permissions
      (.If (.Const (.BoolC true))
        (.cons (.Assign (.Local xLV) const0) (.cons (.Assign (.Local yLV) const0) .nil))
        (.cons (.Assign (.Local yLV) const0) (.cons (.Assign (.Local zLV) const0) .nil)))
      regT = some {Perm.Acc (.Local yLV) .Write} := by
  rw [if_requirements (.Const (.BoolC true))
    (.cons (.Assign (.Local xLV) const0) (.cons (.Assign (.Local yLV) const0) .nil))
    (.cons (.Assign (.Local yLV) const0) (.cons (.Assign (.Local zLV) const0) .nil))
    regT ∅
    {Perm.Acc (.Local xLV) .Write, Perm.Acc (.Local yLV) .Write}
    {Perm.Acc (.Local yLV) .Write, Perm.Acc (.Local zLV) .Write}
    (by decide) (by decide) (by decide)]
  decide

/-- C5: for a `ForAll` or `Exists` whose bound variables all have
non-reference, non-type-variable types, the required set is the body's
requirement minus (by the external algebra's kind+place matching) a
write-access permission `Acc(v, Write)` for each bound variable `v`; if
any bound variable has a reference or type-variable type the analysis is
fatal. -/
theorem quantifier_requirements :
    (∀ (vars : List LocalVar) (body : Expr) (predicates : Predicates) (r : Finset Perm),
      (vars.all fun v => !v.typ.is_typed_ref_or_type_var) = true →
      body.get_required_permissions predicates = some r →
      (Expr.ForAll vars body).get_required_permissions predicates
        = some (perm_difference r
            ((vars.map fun v => Perm.Acc (.Local v) PermAmount.Write).toFinset))) ∧
    (∀ (vars : List LocalVar) (body : Expr) (predicates : Predicates) (r : Finset Perm),
      (vars.all fun v => !v.typ.is_typed_ref_or_type_var) = true →
      body.get_required_permissions predicates = some r →
      (Expr.Exists vars body).get_required_permissions predicates
        = some (perm_difference r
            ((vars.map fun v => Perm.Acc (.Local v) PermAmount.Write).toFinset))) ∧
    (∀ (vars : List LocalVar) (body : Expr) (predicates : Predicates),
      (vars.all fun v => !v.typ.is_typed_ref_or_type_var) = false →
      (Expr.ForAll vars body).get_required_permissions predicates = none) ∧
    (∀ (vars : List LocalVar) (body : Expr) (predicates : Predicates),
      (vars.all fun v => !v.typ.is_typed_ref_or_type_var) = false →
      (Expr.Exists vars body).get_required_permissions predicates = none) := by
  refine ⟨?_, ?_, ?_, ?_⟩ <;> intro vars body predicates
  · intro r hall hbody
    simp [Expr.get_required_permissions, hall, hbody]
  · intro r hall hbody
    simp [Expr.get_required_permissions, hall, hbody]
  · intro hall
    simp [Expr.get_required_permissions, hall]
  · intro hall
    simp [Expr.get_required_permissions, hall]

/-- C5 witness: `ForAll([v], pred_acc(T, v, Read) && w.f)` — the body
requires `{Pred(v, Read), Acc(v, Read), Acc(w.f, Read)}`; the bound
variable's own access requirement is stripped, the rest is kept. -/
theorem quantifier_requirements_witness :
    Expr.get_required_permissions
        (.ForAll [vLV] (.BinOp (.PredicateAccessPredicate tyT (.Local vLV) .Read)
          (.Field (.Local wLV) fld))) regT
      = some {Perm.Pred (.Local vLV) .Read, Perm.Acc (.Field (.Local wLV) fld) .Read} := by
  rw [quantifier_requirements.1 [vLV]
    (.BinOp (.PredicateAccessPredicate tyT (.Local vLV) .Read) (.Field (.Local wLV) fld))
    regT
    {Perm.Pred (.Local vLV) .Read, Perm.Acc (.Local vLV) .Read,
      Perm.Acc (.Field (.Local wLV) fld) .Read}
    (by decide) (by decide)]
  decide

/-- C6: the analysis is deterministic — it is a pure function of the
(construct, registry) pair, so two invocations on identical inputs yield
identical permission sets (definitional in this side-effect-free
embedding). -/
theorem analysis_deterministic (s : Stmt) (e : Expr) (predicates : Predicates) :
    Stmt.get_required_permissions s predicates = Stmt.get_required_permissions s predicates ∧
    Expr.get_required_permissions e predicates = Expr.get_required_permissions e predicates :=
  ⟨rfl, rfl⟩

/-- C7: a `LetExpr`, an `AddrOf` or a `SnapApp` expression, and a
`MethodCall` statement with a non-empty argument list, terminate the
analysis fatally (no permission set is returned). -/
theorem fatal_constructs :
    (∀ (v : LocalVar) (d b : Expr) (predicates : Predicates),
      (Expr.LetExpr v d b).get_required_permissions predicates = none) ∧
    (∀ (base : Expr) (predicates : Predicates),
      (Expr.AddrOf base).get_required_permissions predicates = none) ∧
    (∀ (base : Expr) (predicates : Predicates),
      (Expr.SnapApp base).get_required_permissions predicates = none) ∧
    (∀ (name : String) (args : ExprList) (targets : List LocalVar)
      (predicates : Predicates), args ≠ .nil →
      (Stmt.MethodCall name args targets).get_required_permissions predicates = none) := by
  refine ⟨fun _ _ _ _ => rfl, fun _ _ => rfl, fun _ _ => rfl, ?_⟩
  intro name args targets predicates hargs
  cases args with
  | nil => exact absurd rfl hargs
  | cons a tl => rfl

/-- C7 witness: a `MethodCall` with one argument is fatal. -/
theorem fatal_constructs_witness :
    (Stmt.MethodCall "m" (.cons const0 .nil) []).get_required_permissions regT = none :=
  fatal_constructs.2.2.2 "m" (.cons const0 .nil) [] regT (by decide)

/-- C8: a sequence's requirement is the pure set union of its elements'
requirements — permuting the sequence or duplicating an element yields
an identical result, and the empty sequence yields the empty set (for
expression sequences and statement sequences alike). -/
theorem seq_requirement_pure_union :
    (∀ (predicates : Predicates) (es₁ es₂ : ExprList), es₁.toList.Perm es₂.toList →
      es₁.get_required_permissions predicates = es₂.get_required_permissions predicates) ∧
    (∀ (predicates : Predicates) (e : Expr) (tl : ExprList),
      (ExprList.cons e (ExprList.cons e tl)).get_required_permissions predicates
        = (ExprList.cons e tl).get_required_permissions predicates) ∧
    (∀ predicates : Predicates, ExprList.nil.get_required_permissions predicates = some ∅) ∧
    (∀ (predicates : Predicates) (ss₁ ss₂ : StmtList), ss₁.toList.Perm ss₂.toList →
      ss₁.get_required_permissions predicates = ss₂.get_required_permissions predicates) ∧
    (∀ (predicates : Predicates) (s : Stmt) (tl : StmtList),
      (StmtList.cons s (StmtList.cons s tl)).get_required_permissions predicates
        = (StmtList.cons s tl).get_required_permissions predicates) ∧
    (∀ predicates : Predicates, StmtList.nil.get_required_permissions predicates = some ∅) := by
  refine ⟨?_, ?_, fun _ => rfl, ?_, ?_, fun _ => rfl⟩
  · intro predicates es₁ es₂ h
    rw [exprList_req_eq_seqUnion, exprList_req_eq_seqUnion]
    exact seqUnion_perm_invariant _ h
  · intro predicates e tl
    rw [exprList_req_eq_seqUnion, exprList_req_eq_seqUnion]
    simpa only [ExprList.toList] using
      seqUnion_dup (fun e => e.get_required_permissions predicates) e tl.toList
  · intro predicates ss₁ ss₂ h
    rw [stmtList_req_eq_seqUnion, stmtList_req_eq_seqUnion]
    exact seqUnion_perm_invariant _ h
  · intro predicates s tl
    rw [stmtList_req_eq_seqUnion, stmtList_req_eq_seqUnion]
    simpa only [StmtList.toList] using
      seqUnion_dup (fun s => s.get_required_permissions predicates) s tl.toList

/-- C8 witness: swapping the two elements of a concrete sequence leaves
the requirement unchanged. -/
theorem seq_requirement_pure_union_witness :
    (ExprList.cons const0 (ExprList.cons xPlace .nil)).get_required_permissions regT
      = (ExprList.cons xPlace (ExprList.cons const0 .nil)).get_required_permissions regT :=
  seq_requirement_pure_union.1 regT _ _ (by decide)

/-- C9: in the `ForAll`/`Exists` case only write-access (`Acc`)
permissions on the bound variables themselves are subtracted from the
body's requirement; every predicate permission of the body's
requirement — in particular a `Pred(v, amt)` on a bound variable `v` —
is retained in the returned set. -/
theorem quantifier_keeps_pred_perms
    (vars : List LocalVar) (body : Expr) (predicates : Predicates) (r : Finset Perm)
    (hvars : (vars.all fun v => !v.typ.is_typed_ref_or_type_var) = true)
    (hbody : body.get_required_permissions predicates = some r) :
    ∃ res,
      (Expr.ForAll vars body).get_required_permissions predicates = some res ∧
      (Expr.Exists vars body).get_required_permissions predicates = some res ∧
      (∀ q ∈ r, q ∉ res → ∃ v ∈ vars, q.kindPlace = (true, Expr.Local v)) ∧
      (∀ (place : Expr) (amt : PermAmount),
        Perm.Pred place amt ∈ r → Perm.Pred place amt ∈ res) := by
  refine ⟨perm_difference r
    ((vars.map fun v => Perm.Acc (.Local v) PermAmount.Write).toFinset), ?_, ?_, ?_, ?_⟩
  · simp [Expr.get_required_permissions, hvars, hbody]
  · simp [Expr.get_required_permissions, hvars, hbody]
  · intro q hq hnot
    have : ¬ (∀ o ∈ (vars.map fun v => Perm.Acc (.Local v) PermAmount.Write).toFinset,
        q.kindPlace ≠ o.kindPlace) := fun hforall =>
      hnot (Finset.mem_filter.mpr ⟨hq, hforall⟩)
    push_neg at this
    obtain ⟨o, ho, heq⟩ := this
    obtain ⟨v, hv, rfl⟩ := List.mem_map.mp (List.mem_toFinset.mp ho)
    exact ⟨v, hv, by simpa [Perm.kindPlace] using heq⟩
  · intro place amt hmem
    refine Finset.mem_filter.mpr ⟨hmem, ?_⟩
    intro o ho
    obtain ⟨v, _, rfl⟩ := List.mem_map.mp (List.mem_toFinset.mp ho)
    simp [Perm.kindPlace]

/-- C9 witness: `ForAll([v], pred_acc(T, v, Read))` — the body requires
`{Pred(v, Read), Acc(v, Read)}`; the predicate permission on the bound
variable `v` survives in the result. -/
theorem quantifier_keeps_pred_perms_witness :
    ∃ res,
      (Expr.ForAll [vLV]
        (.PredicateAccessPredicate tyT (.Local vLV) .Read)).get_required_permissions regT
        = some res ∧
      (Expr.Exists [vLV]
        (.PredicateAccessPredicate tyT (.Local vLV) .Read)).get_required_permissions regT
        = some res ∧
      (∀ q ∈ ({Perm.Pred (.Local vLV) .Read, Perm.Acc (.Local vLV) .Read} : Finset Perm),
        q ∉ res → ∃ v ∈ [vLV], Perm.kindPlace q = (true, Expr.Local v)) ∧
      (∀ (place : Expr) (amt : PermAmount),
        Perm.Pred place amt ∈
            ({Perm.Pred (.Local vLV) .Read, Perm.Acc (.Local vLV) .Read} : Finset Perm) →
          Perm.Pred place amt ∈ res) :=
  quantifier_keeps_pred_perms [vLV] (.PredicateAccessPredicate tyT (.Local vLV) .Read)
    regT {Perm.Pred (.Local vLV) .Read, Perm.Acc (.Local vLV) .Read}
    (by decide) (by decide)

/-- C10: the `ApplyMagicWand` arm requires the wand's left-hand side when
the statement's `magic_wand` field is syntactically a `MagicWand`
expression; for every other expression shape the statement falls through
to the fatal catch-all arm and no set is returned. -/
theorem apply_magic_wand_requirements :
    (∀ (l r : Expr) (predicates : Predicates),
      (Stmt.ApplyMagicWand (.MagicWand l r)).get_required_permissions predicates
        = l.get_required_permissions predicates) ∧
    (∀ (w : Expr) (predicates : Predicates), (∀ l r, w ≠ .MagicWand l r) →
      (Stmt.ApplyMagicWand w).get_required_permissions predicates = none) := by
  constructor
  · intro l r predicates; rfl
  · intro w predicates hw
    cases w with
    | MagicWand l r => exact absurd rfl (hw l r)
    | _ => rfl

/-- C10 witness: applying a wand whose `magic_wand` field is a constant
(not a `MagicWand` expression) is fatal. -/
theorem apply_magic_wand_requirements_witness :
    (Stmt.ApplyMagicWand const0).get_required_permissions regT = none :=
  apply_magic_wand_requirements.2 const0 regT (fun _ _ h => nomatch h)

end FoldUnfold
